import Mathlib

/-!
Shallow embedding of the content-negotiation service (`package services`).
Strings are modelled as `List Char`; Go panics surface as `Option.none`.
-/

/-- A Go string, modelled as its list of characters. -/
abbrev Str := List Char

/-- View a Lean string literal as a model string. -/
def strOf (s : String) : Str := s.data

/-- Go `strings.ToLower`, restricted to the ASCII inputs that occur here. -/
def toLowerStr (s : Str) : Str := s.map Char.toLower

/-- Go `strings.Split` with a one-character separator: always at least one piece. -/
def splitOnChar (sep : Char) : Str → List Str
  | [] => [[]]
  | c :: rest =>
    match splitOnChar sep rest with
    | h :: t => if c == sep then [] :: h :: t else (c :: h) :: t
    | [] => [[c]]

/-- Whether the first list is a prefix of the second (Go-style, Bool-valued). -/
def isPrefixStr : Str → Str → Bool
  | [], _ => true
  | _ :: _, [] => false
  | a :: as, b :: bs => a == b && isPrefixStr as bs

/-- Go `strings.Contains s sub`: `sub` occurs somewhere inside `s`. -/
def containsSub : Str → Str → Bool
  | s, sub =>
    isPrefixStr sub s ||
      match s with
      | [] => false
      | _ :: t => containsSub t sub

example : containsSub (strOf "application/xml;q=0.5") (strOf "/xml") = true := by decide
example : containsSub (strOf "") (strOf "") = true := by decide
example : containsSub (strOf "") (strOf "a") = false := by decide
example : toLowerStr (strOf "Text/XML") = strOf "text/xml" := by decide
example : splitOnChar ';' (strOf "a/b;q=0.5") = [strOf "a/b", strOf "q=0.5"] := by decide

/-- The suffix of a string starting at its last `'/'` (the slash included), mirroring
`types[0][strings.LastIndex(types[0], "/"):]`; `none` when there is no slash, in which
case the Go slice expression `types[0][-1:]` panics. -/
def suffixFromLastSlash : Str → Option Str
  | [] => none
  | c :: rest =>
    match suffixFromLastSlash rest with
    | some s => some s
    | none => if c == '/' then some (c :: rest) else none

example : suffixFromLastSlash (strOf "application/xml") = some (strOf "/xml") := by decide
example : suffixFromLastSlash (strOf "a/b/c") = some (strOf "/c") := by decide
example : suffixFromLastSlash (strOf "gzip") = none := by decide

/-- The numeric value of a decimal digit character. -/
def digitVal (c : Char) : Option Nat :=
  if '0' ≤ c && c ≤ '9' then some (c.toNat - '0'.toNat) else none

/-- The value of a non-empty all-digit string. -/
def digitsVal (s : Str) : Option Nat :=
  match s with
  | [] => none
  | _ =>
    s.foldl (fun acc c =>
      match acc, digitVal c with
      | some n, some d => some (n * 10 + d)
      | _, _ => none) (some 0)

/-- Model of `strconv.ParseFloat` on the unsigned decimal notations that an Accept
header `q` parameter can carry; exact rational arithmetic stands in for `float32`,
which preserves the orderings and (in)equalities the service observes.  This code
path is unreachable at runtime (see `NewAcceptType`): the `Variables` map is never
populated, so no `q` value is ever parsed. -/
def parseQ (s : Str) : Option Rat :=
  match splitOnChar '.' s with
  | [intPart] =>
    match digitsVal intPart with
    | some i => some (Rat.divInt (Int.ofNat i) 1)
    | none => none
  | [intPart, fracPart] =>
    match digitsVal intPart, digitsVal fracPart with
    | some i, some f =>
      some (Rat.divInt (Int.ofNat (i * 10 ^ fracPart.length + f)) (Int.ofNat (10 ^ fracPart.length)))
    | _, _ => none
  | _ => none

example : parseQ (strOf "0.9") = some (Rat.divInt 9 10) := by decide
example : parseQ (strOf "1") = some 1 := by decide
example : parseQ (strOf "abc") = none := by decide

/-- One parsed Accept-header clause (the payload fields of the Go `AcceptType`
struct, shared by both source files; the tree fields `Size`/`Left`/`Right` of the
unnamed file's variant live in `ATree` below). -/
structure AcceptData where
  ContentTypes : List Str
  Variables : List (Str × Str)
  Priority : Rat
deriving DecidableEq

/-- Lookup in the `Variables` map. -/
def lookupVar (vars : List (Str × Str)) (key : Str) : Option Str :=
  (vars.find? (fun kv => kv.1 == key)).map (·.2)

/-- `NewAcceptType` (both source files, line for line): splits the clause on `;`,
stores each `name=value` pair into `acceptType.Variables`, splits the type portion
on `+`, strips everything before the last `/` of the first piece, and reads the
priority from the `q` variable with default `1.0`.

Two Go slips make the function partial, modelled by `none`:
the `Variables` map is never allocated (`new(AcceptType)` leaves it nil), so the
first write into it panics — hence any clause containing `;` panics (and a
parameter without `=` would panic on `variableParts[1]` even before that write);
and a type portion without `/` gives `categoryEnd = -1`, so `types[0][-1:]` panics. -/
def NewAcceptType (accept : Str) : Option AcceptData :=
  let typesAndVariables := splitOnChar ';' accept
  let varSegments := typesAndVariables.tail
  match varSegments with
  | _ :: _ => none
  | [] =>
    let typesString := typesAndVariables.headD []
    let types := splitOnChar '+' typesString
    match suffixFromLastSlash (types.headD []) with
    | none => none
    | some stripped =>
      let contentTypes := stripped :: types.tail
      let vars : List (Str × Str) := []
      let priority : Rat :=
        match lookupVar vars (strOf "q") with
        | some v =>
          match parseQ v with
          | some p => p
          | none => 1
        | none => 1
      some { ContentTypes := contentTypes, Variables := vars, Priority := priority }

example : NewAcceptType (strOf "application/vnd.api+json") =
    some { ContentTypes := [strOf "/vnd.api", strOf "json"], Variables := [], Priority := 1 } := by
  decide
example : NewAcceptType (strOf "application/json;q=0.9") = none := by decide
example : NewAcceptType (strOf "a/b;name") = none := by decide
example : NewAcceptType (strOf "gzip") = none := by decide

/-- The tree shape of the unnamed source file's `AcceptType`: its `Left`/`Right`
pointers (nil pointer = `nil`) and its `Size` field, with the payload fields in
`AcceptData`.  `NewAcceptType` there sets `Size = 1`, i.e. builds a `leaf`. -/
inductive ATree where
  | nil : ATree
  | node (data : AcceptData) (size : Nat) (left right : ATree) : ATree
deriving DecidableEq

/-- The `Size` field (0 stands for the nil pointer, whose `Size` is never read). -/
def ATree.size : ATree → Nat
  | .nil => 0
  | .node _ s _ _ => s

/-- A freshly parsed clause as a tree node (`Size = 1`, nil children). -/
def ATree.leaf (d : AcceptData) : ATree := .node d 1 .nil .nil

/-- `AcceptType.Append` of the unnamed source file, as a function on trees.  A
clause of equal priority goes into the first free child slot (left, then right),
or recursively into the smaller subtree "to keep the tree balanced"; a higher
priority goes left, a lower one right; the receiver's `Size` is incremented.
The `nil` case is unreachable from the translated call sites (Go calls `Append`
only on a non-nil receiver). -/
def ATree.append : ATree → AcceptData → ATree
  | .nil, next => ATree.leaf next
  | .node cur sz l r, next =>
    if next.Priority = cur.Priority then
      match l, r with
      | .nil, _ => .node cur (sz + 1) (ATree.leaf next) r
      | _, .nil => .node cur (sz + 1) l (ATree.leaf next)
      | _, _ =>
        if r.size ≤ l.size then .node cur (sz + 1) l (r.append next)
        else .node cur (sz + 1) (l.append next) r
    else if cur.Priority < next.Priority then
      match l with
      | .nil => .node cur (sz + 1) (ATree.leaf next) r
      | _ => .node cur (sz + 1) (l.append next) r
    else
      match r with
      | .nil => .node cur (sz + 1) l (ATree.leaf next)
      | _ => .node cur (sz + 1) l (r.append next)

/-- `AcceptType.ToSlice` of the unnamed source file.  Go fills a `Size`-length
slice with `Left.ToSlice()`, then the node itself at index `Left.Size`, then
`Right.ToSlice()` after it; for every tree the translated code builds, `Size` is
exactly the subtree's node count, so this index arithmetic realises the in-order
list. -/
def ATree.toSlice : ATree → List AcceptData
  | .nil => []
  | .node d _ l r => l.toSlice ++ [d] ++ r.toSlice

/-- `ParseAcceptTypes` of the unnamed source file: split the header on `,`, make
the first clause the root and `Append` the remaining ones.  A panic inside any
`NewAcceptType` call (see there) aborts the whole parse: `none`. -/
def ParseAcceptTypesTree (accept : Str) : Option ATree :=
  (splitOnChar ',' accept).foldl
    (fun acc acceptStr =>
      match acc, NewAcceptType acceptStr with
      | some root, some nextType =>
        some (match root with
              | .nil => ATree.leaf nextType
              | _ => root.append nextType)
      | _, _ => none)
    (some ATree.nil)

example : (ParseAcceptTypesTree (strOf "a/b, c/d, e/f")).map
    (fun t => t.toSlice.map AcceptData.ContentTypes) =
    some [[strOf "/d"], [strOf "/b"], [strOf "/f"]] := by decide
example : ParseAcceptTypesTree (strOf "application/xml;q=0.5, application/json;q=0.9") = none := by
  decide

/-- Opaque payload values handed to marshalling; the negotiation layer never
inspects them, so a concrete carrier type suffices. -/
abbrev Val := Nat

/-- The `options` map passed through to codecs (contents opaque to this layer). -/
abbrev Options := List (Str × Val)

/-- Marshalled output bytes. -/
abbrev Bytes := List Nat

/-- The codec capability (`codecs.Codec`, an external interface of the repository
root package): content type, file extension, callback support, and the marshal
operation.  `Unmarshal` is not modelled; no verified property concerns it. -/
structure Codec where
  contentType : Str
  fileExtension : Str
  canMarshalWithCallback : Bool
  marshal : Val → Options → Except Str Bytes

/-- Modelled from the spec: `constants.ContentTypeJSON`, the canonical default
content type (JSON); the constants package is repository code outside `src/`. -/
def ContentTypeJSON : Str := strOf "application/json"

/-- Modelled from the spec: `constants.ContentTypeJSONP`, the designated
callback-capable (padded JSON) content type; repository code outside `src/`. -/
def ContentTypeJSONP : Str := strOf "text/javascript"

/-- A marshal stand-in for the default codecs: byte encoding is out of scope
("it owns no encoding logic itself"), only the codec identities matter here. -/
def stubMarshal (v : Val) (_ : Options) : Except Str Bytes := .ok [v]

/-- Modelled from the spec: `json.JsonCodec`, a sibling package outside `src/`;
its content type is the canonical JSON type. -/
def JsonCodec : Codec :=
  { contentType := ContentTypeJSON, fileExtension := strOf "json"
    canMarshalWithCallback := false, marshal := stubMarshal }

/-- Modelled from the spec: `jsonp.JsonPCodec`, the callback-capable codec. -/
def JsonPCodec : Codec :=
  { contentType := ContentTypeJSONP, fileExtension := strOf "js"
    canMarshalWithCallback := true, marshal := stubMarshal }

/-- Modelled from the spec: `msgpack.MsgpackCodec` (outside `src/`). -/
def MsgpackCodec : Codec :=
  { contentType := strOf "application/x-msgpack", fileExtension := strOf "msgpack"
    canMarshalWithCallback := false, marshal := stubMarshal }

/-- Modelled from the spec: `bson.BsonCodec` (outside `src/`). -/
def BsonCodec : Codec :=
  { contentType := strOf "application/bson", fileExtension := strOf "bson"
    canMarshalWithCallback := false, marshal := stubMarshal }

/-- Modelled from the spec: `csv.CsvCodec` (outside `src/`). -/
def CsvCodec : Codec :=
  { contentType := strOf "text/csv", fileExtension := strOf "csv"
    canMarshalWithCallback := false, marshal := stubMarshal }

/-- Modelled from the spec: `xml.SimpleXmlCodec` (outside `src/`). -/
def SimpleXmlCodec : Codec :=
  { contentType := strOf "text/xml", fileExtension := strOf "xml"
    canMarshalWithCallback := false, marshal := stubMarshal }

/-- `DefaultCodecs` (both source files, line 76 / 142): JSON, JSONP, MsgPack,
BSON, CSV, XML, in this order. -/
def DefaultCodecs : List Codec :=
  [JsonCodec, JsonPCodec, MsgpackCodec, BsonCodec, CsvCodec, SimpleXmlCodec]

/-- The declared (and, at the failure site of `GetCodec`, unused) error value
`ErrorContentTypeNotSupported`, modelled by its message. -/
def ErrorContentTypeNotSupported : Str := strOf "Content type is not supported."

/-- The error `GetCodec` actually returns:
`fmt.Sprintf("Content type \"%s\" is not supported.", contentType)`. -/
def contentTypeNotSupportedMessage (contentType : Str) : Str :=
  strOf "Content type \"" ++ contentType ++ strOf "\" is not supported."

/-- `WebCodecService`: the ordered registry of installed codecs. -/
structure WebCodecService where
  codecs : List Codec

/-- `NewWebCodecService`: a service pre-populated with the default codecs. -/
def NewWebCodecService : WebCodecService := { codecs := DefaultCodecs }

/-- `Codecs`: the currently installed codecs. -/
def WebCodecService.Codecs (s : WebCodecService) : List Codec := s.codecs

/-- `AddCodec`: append a codec to the registry. -/
def WebCodecService.AddCodec (s : WebCodecService) (codec : Codec) : WebCodecService :=
  { codecs := s.codecs ++ [codec] }

/-- `assertCodecs`: true when at least one codec is installed (Go panics when
the registry is empty; the operations below model that panic as `none`). -/
def WebCodecService.assertCodecs (s : WebCodecService) : Bool := !s.codecs.isEmpty

/-- `AcceptType.FindCodec` of the unnamed source file: scan the registry in
order and, per codec, compare each of the clause's content-type candidates
case-insensitively for equality. -/
def AcceptData.findCodec (d : AcceptData) (cs : List Codec) : Option Codec :=
  cs.find? (fun codec =>
    d.ContentTypes.any (fun typeString =>
      toLowerStr typeString == toLowerStr codec.contentType))

/-- The per-codec test of the scan loop in `GetCodecForResponding`
(src/services/web_codec_service.go lines 129-137): the accept header contains
the codec's content type (case-insensitive substring), or the file extension
matches (case-insensitive), or a callback is wanted and the codec supports it. -/
def respondingMatch (accept extension : Str) (hasCallback : Bool) (codec : Codec) : Bool :=
  containsSub (toLowerStr accept) (toLowerStr codec.contentType)
  || toLowerStr codec.fileExtension == toLowerStr extension
  || (hasCallback && codec.canMarshalWithCallback)

/-- The test of the callback prescan in both versions of `GetCodecForResponding`:
`codec.ContentType() == constants.ContentTypeJSONP` (exact, case-sensitive). -/
def jsonpMatch (codec : Codec) : Bool := codec.contentType == ContentTypeJSONP

/-- `GetCodecForResponding` of src/services/web_codec_service.go: after the
non-emptiness assertion (`none` = panic on an empty registry), an optional JSONP
prescan when a callback is wanted, then one scan of the registry with the
interleaved accept/extension/callback test, then the first codec as fallback. -/
def WebCodecService.GetCodecForResponding (s : WebCodecService)
    (accept extension : Str) (hasCallback : Bool) : Option Codec :=
  match s.codecs with
  | [] => none
  | c0 :: rest =>
    match (if hasCallback then (c0 :: rest).find? jsonpMatch else none) with
    | some codec => some codec
    | none =>
      match (c0 :: rest).find? (respondingMatch accept extension hasCallback) with
      | some codec => some codec
      | none => some c0

/-- `GetCodecForResponding` of the unnamed source file (suffix `Tree` added to
coexist with the other version): the same JSONP prescan, then the parsed accept
clauses in `ToSlice` order, each matched with `FindCodec`; then a second scan
for extension or callback matches; then the first codec.  A panic inside
`ParseAcceptTypes` (see `NewAcceptType`) aborts the call: `none`. -/
def WebCodecService.GetCodecForRespondingTree (s : WebCodecService)
    (accept extension : Str) (hasCallback : Bool) : Option Codec :=
  match s.codecs with
  | [] => none
  | c0 :: rest =>
    match (if hasCallback then (c0 :: rest).find? jsonpMatch else none) with
    | some codec => some codec
    | none =>
      match ParseAcceptTypesTree accept with
      | none => none
      | some acceptTypesRoot =>
        match acceptTypesRoot.toSlice.findSome? (fun d => d.findCodec (c0 :: rest)) with
        | some codec => some codec
        | none =>
          match (c0 :: rest).find? (fun codec =>
              toLowerStr codec.fileExtension == toLowerStr extension
              || (hasCallback && codec.canMarshalWithCallback)) with
          | some codec => some codec
          | none => some c0

/-- The per-codec test of the scan loop in `GetCodec`: the given content type is
empty and the codec's type is the canonical JSON type, or the codec's type is a
case-insensitive substring of the given one. -/
def interpretMatch (contentType : Str) (codec : Codec) : Bool :=
  (contentType.isEmpty && codec.contentType == ContentTypeJSON)
  || containsSub (toLowerStr contentType) (toLowerStr codec.contentType)

/-- `GetCodec` (identical in both source files): after the non-emptiness
assertion (`none` = panic on an empty registry), scan the registry with
`interpretMatch`; when no codec matches, return the formatted
content-type-not-supported error. -/
def WebCodecService.GetCodec (s : WebCodecService) (contentType : Str) :
    Option (Except Str Codec) :=
  match s.codecs with
  | [] => none
  | c0 :: rest =>
    match (c0 :: rest).find? (interpretMatch contentType) with
    | some codec => some (.ok codec)
    | none => some (.error (contentTypeNotSupportedMessage contentType))

/-- Modelled from the spec: `codecs.PublicData` lives in the repository root
package, outside `src/`.  An object either exposes the produces-public-
representation capability (`facade`) or not (`plain`). -/
inductive Object where
  | plain (v : Val)
  | facade (f : Options → Except Str Val)

/-- Modelled from the spec: "if `object` exposes a produces-public-representation
capability, invoke it with `options` and use the result; otherwise use `object`
unchanged.  Propagate any failure from this extraction step directly." -/
def PublicData : Object → Options → Except Str Val
  | .plain v, _ => .ok v
  | .facade f, options => f options

/-- `MarshalWithCodec` (identical in both source files): assert non-emptiness,
extract the public data, return its error unchanged, otherwise delegate to the
codec's marshal. -/
def WebCodecService.MarshalWithCodec (s : WebCodecService) (codec : Codec)
    (object : Object) (options : Options) : Option (Except Str Bytes) :=
  match s.codecs with
  | [] => none
  | _ =>
    match PublicData object options with
    | .error err => some (.error err)
    | .ok publicData => some (codec.marshal publicData options)

/-- `ParseAcceptTypes` of src/services/web_codec_service.go (suffix `Map` added
to coexist with the unnamed file's tree version): buckets the parsed clauses by
priority in a Go map, modelled as a function from priority to the bucket in
header order — a Go map imposes no order on its keys, and `GetCodecForResponding`
in that file never consults this function. -/
def ParseAcceptTypesMap (accept : Str) : Option (Rat → List AcceptData) :=
  (splitOnChar ',' accept).foldl
    (fun acc acceptStr =>
      match acc, NewAcceptType acceptStr with
      | some types, some acceptType =>
        some (fun p => if p = acceptType.Priority then types p ++ [acceptType] else types p)
      | _, _ => none)
    (some (fun _ => []))

/-- The abstract XML codec of the spec's negotiation examples: a registered codec
whose content type is `application/xml` (so that the example's first Accept
clause names a registered codec) and whose file extension is `xml`. -/
def exampleXmlCodec : Codec :=
  { contentType := strOf "application/xml", fileExtension := strOf "xml"
    canMarshalWithCallback := false, marshal := stubMarshal }

/-- A registry codec whose extension matches the request's extension while a
later codec's content type matches the Accept header (used against claim C3). -/
def extensionCodec : Codec :=
  { contentType := strOf "a/b", fileExtension := strOf "a"
    canMarshalWithCallback := false, marshal := stubMarshal }

/-- A registry codec whose content type `c/d` appears verbatim in the Accept
header of the C3 counterexample. -/
def acceptedCodec : Codec :=
  { contentType := strOf "c/d", fileExtension := strOf "z"
    canMarshalWithCallback := false, marshal := stubMarshal }

/-- A registry codec with an empty declared content type: the registry performs
"no validation of the contentType/fileExtension values" (spec 4.3), and the
empty string is a substring of every content type (used against claim C8). -/
def emptyTypeCodec : Codec :=
  { contentType := [], fileExtension := strOf "raw"
    canMarshalWithCallback := false, marshal := stubMarshal }

/-- Pointwise equal predicates find the same element. -/
theorem find?_congr {α : Type} (p q : α → Bool) (hpq : ∀ a, p a = q a) (l : List α) :
    l.find? p = l.find? q := by
  rw [funext hpq]

/-- Totality and closure of the substring-scan `GetCodecForResponding`: on a
non-empty registry it always returns one of the installed codecs. -/
theorem respond_total_helper (s : WebCodecService) (accept extension : Str)
    (hasCallback : Bool) (h : s.codecs ≠ []) :
    ∃ codec, s.GetCodecForResponding accept extension hasCallback = some codec ∧
      codec ∈ s.codecs := by
  rcases hcs : s.codecs with _ | ⟨c0, rest⟩
  · exact absurd hcs h
  · unfold WebCodecService.GetCodecForResponding
    rw [hcs]
    cases hasCallback with
    | false =>
      show ∃ codec,
          (match (c0 :: rest).find? (respondingMatch accept extension false) with
           | some codec => some codec
           | none => some c0) = some codec ∧ codec ∈ c0 :: rest
      cases hfind : (c0 :: rest).find? (respondingMatch accept extension false) with
      | some codec => exact ⟨codec, rfl, List.mem_of_find?_eq_some hfind⟩
      | none => exact ⟨c0, rfl, List.mem_cons_self c0 rest⟩
    | true =>
      show ∃ codec,
          (match (c0 :: rest).find? jsonpMatch with
           | some codec => some codec
           | none =>
             match (c0 :: rest).find? (respondingMatch accept extension true) with
             | some codec => some codec
             | none => some c0) = some codec ∧ codec ∈ c0 :: rest
      cases hpre : (c0 :: rest).find? jsonpMatch with
      | some codec => exact ⟨codec, rfl, List.mem_of_find?_eq_some hpre⟩
      | none =>
        cases hfind : (c0 :: rest).find? (respondingMatch accept extension true) with
        | some codec => exact ⟨codec, rfl, List.mem_of_find?_eq_some hfind⟩
        | none => exact ⟨c0, rfl, List.mem_cons_self c0 rest⟩

/-- C1 (amended): for every non-empty registry and all inputs, the
`GetCodecForResponding` of src/services/web_codec_service.go never fails and
returns a codec installed in the registry; the unnamed file's tree variant loses
this (it panics whenever the Accept header parse panics — see the
counterexample). -/
theorem getCodecForResponding_total_and_member (s : WebCodecService)
    (accept extension : Str) (hasCallback : Bool) (h : s.codecs ≠ []) :
    ∃ codec, s.GetCodecForResponding accept extension hasCallback = some codec ∧
      codec ∈ s.codecs :=
  respond_total_helper s accept extension hasCallback h

/-- Witness: the amended C1 theorem applied to a concrete one-codec registry. -/
theorem getCodecForResponding_total_and_member_witness :
    ∃ codec, WebCodecService.GetCodecForResponding { codecs := [SimpleXmlCodec] }
        (strOf "text/html") (strOf "html") false = some codec ∧
      codec ∈ ({ codecs := [SimpleXmlCodec] } : WebCodecService).codecs :=
  getCodecForResponding_total_and_member { codecs := [SimpleXmlCodec] }
    (strOf "text/html") (strOf "html") false (List.cons_ne_nil _ _)

/-- C1 counterexample: the unnamed source file's `GetCodecForResponding`, on the
non-empty registry `[exampleXmlCodec]` with Accept header
`application/xml;q=0.5`, returns no codec at all — `NewAcceptType` panics on the
nil `Variables` map — refuting "never returns an error: the selection is total". -/
theorem getCodecForRespondingTree_panics_on_nonempty_registry :
    WebCodecService.GetCodecForRespondingTree { codecs := [exampleXmlCodec] }
        (strOf "application/xml;q=0.5") [] false = none ∧
    ({ codecs := [exampleXmlCodec] } : WebCodecService).codecs ≠ [] :=
  ⟨rfl, List.cons_ne_nil _ _⟩

/-- C2: both implementations violate q-priority ordering.  On the spec's own
example (registry XML-before-JSON, header
`application/xml;q=0.5, application/json;q=0.9`) the substring-scan version
returns the XML codec — the first registry codec whose content type occurs in
the header, q never read — and the tree variant panics on the nil `Variables`
map; the third conjunct repeats the experiment with the default (`text/xml`)
XML codec, which again wins against a q=0.9 JSON clause. -/
theorem getCodecForResponding_ignores_q_priorities :
    WebCodecService.GetCodecForResponding { codecs := [exampleXmlCodec, JsonCodec] }
        (strOf "application/xml;q=0.5, application/json;q=0.9") [] false
      = some exampleXmlCodec ∧
    WebCodecService.GetCodecForRespondingTree { codecs := [exampleXmlCodec, JsonCodec] }
        (strOf "application/xml;q=0.5, application/json;q=0.9") [] false = none ∧
    WebCodecService.GetCodecForResponding { codecs := [SimpleXmlCodec, JsonCodec] }
        (strOf "text/xml;q=0.5, application/json;q=0.9") [] false
      = some SimpleXmlCodec ∧
    exampleXmlCodec ≠ JsonCodec :=
  ⟨rfl, rfl, rfl, fun hEq => absurd (congrArg Codec.contentType hEq) (by decide)⟩

/-- C3 (amended): in src/services/web_codec_service.go, Accept and extension
matching are interleaved in one registry scan — with no callback, the result is
the first codec whose content type occurs in the header or whose extension
matches, with the first installed codec as fallback.  An accept match therefore
only beats extension matches of codecs that come later in the registry.
(The unnamed file's tree variant does scan all Accept clauses first.) -/
theorem getCodecForResponding_interleaved_scan (s : WebCodecService)
    (accept extension : Str) (c0 : Codec) (rest : List Codec)
    (hcs : s.codecs = c0 :: rest) :
    s.GetCodecForResponding accept extension false =
      some (((c0 :: rest).find? (respondingMatch accept extension false)).getD c0) := by
  unfold WebCodecService.GetCodecForResponding
  rw [hcs]
  show (match (c0 :: rest).find? (respondingMatch accept extension false) with
        | some codec => some codec
        | none => some c0) =
      some (((c0 :: rest).find? (respondingMatch accept extension false)).getD c0)
  cases (c0 :: rest).find? (respondingMatch accept extension false) <;> rfl

/-- Witness: the amended C3 theorem applied to the spec's extension-fallback
example — registry JSON-before-XML, header `text/unrecognized`, extension `xml` —
which still returns the XML codec. -/
theorem getCodecForResponding_interleaved_scan_witness :
    WebCodecService.GetCodecForResponding { codecs := [JsonCodec, SimpleXmlCodec] }
        (strOf "text/unrecognized") (strOf "xml") false = some SimpleXmlCodec :=
  (getCodecForResponding_interleaved_scan { codecs := [JsonCodec, SimpleXmlCodec] }
      (strOf "text/unrecognized") (strOf "xml") JsonCodec [SimpleXmlCodec] rfl).trans rfl

/-- C3 counterexample: with registry `[extensionCodec, acceptedCodec]`, header
`c/d` and extension `a`, the later codec's content type occurs verbatim in the
Accept header (second conjunct), yet the scan returns the earlier codec by its
extension match — an extension match is not strictly preceded by accept
matching. -/
theorem extensionMatch_beats_later_acceptMatch :
    WebCodecService.GetCodecForResponding { codecs := [extensionCodec, acceptedCodec] }
        (strOf "c/d") (strOf "a") false = some extensionCodec ∧
    containsSub (toLowerStr (strOf "c/d")) (toLowerStr acceptedCodec.contentType) = true ∧
    extensionCodec ≠ acceptedCodec :=
  ⟨rfl, rfl, fun hEq => absurd (congrArg Codec.contentType hEq) (by decide)⟩

/-- C4: the tree grouper does not preserve header order among equal-priority
clauses.  For header `a/b, c/d, e/f` every clause parses with priority 1.0
(second conjunct), yet `ToSlice` yields the clauses in the order
`c/d, a/b, e/f`: `Append` fills the left child slot, then the right, so ties are
redistributed around the root instead of kept in header order. -/
theorem parseAcceptTypes_reorders_equal_priority_clauses :
    (ParseAcceptTypesTree (strOf "a/b, c/d, e/f")).map
        (fun t => t.toSlice.map AcceptData.ContentTypes) =
      some [[strOf "/d"], [strOf "/b"], [strOf "/f"]] ∧
    (ParseAcceptTypesTree (strOf "a/b, c/d, e/f")).map
        (fun t => t.toSlice.map AcceptData.Priority) =
      some [1, 1, 1] := by
  decide

/-- C5: `NewAcceptType` is not total.  It panics (returns no `AcceptType`) on a
perfectly well-formed clause carrying a parameter (the nil `Variables` map), on
a clause whose parameter segment lacks `=` (`variableParts[1]` is out of range —
the nil-map write would panic anyway), and on a clause with no `/`
(`types[0][-1:]` is out of bounds). -/
theorem newAcceptType_panics_instead_of_degrading :
    NewAcceptType (strOf "text/html;level=1") = none ∧
    NewAcceptType (strOf "a/b;name") = none ∧
    NewAcceptType (strOf "deflate") = none := by
  decide

/-- C6: no parsed clause ever carries its `q` value.  A clause with a `q`
parameter panics before the priority is computed (first conjunct), so the
claimed "equals the parsed q value otherwise" case is unrealisable; the clauses
that do parse — exactly those without parameters — all get priority 1.0. -/
theorem acceptType_priority_never_parsed_from_q :
    NewAcceptType (strOf "application/xml;q=0.5") = none ∧
    (NewAcceptType (strOf "application/xml")).map AcceptData.Priority = some 1 ∧
    (NewAcceptType (strOf "text/html")).map AcceptData.Priority = some 1 := by
  decide

/-- For a non-empty content type, the `GetCodec` scan test is exactly the
case-insensitive substring test. -/
theorem interpretMatch_of_ne_nil (contentType : Str) (hct : contentType ≠ [])
    (codec : Codec) :
    interpretMatch contentType codec
      = containsSub (toLowerStr contentType) (toLowerStr codec.contentType) := by
  unfold interpretMatch
  cases contentType with
  | nil => exact absurd rfl hct
  | cons a t => rfl

/-- With the empty content type, the `GetCodec` scan test accepts exactly the
codecs declaring the canonical JSON type and those declaring an empty type. -/
theorem interpretMatch_nil (codec : Codec) :
    interpretMatch [] codec
      = (codec.contentType == ContentTypeJSON || codec.contentType == []) := by
  unfold interpretMatch
  cases hc : codec.contentType with
  | nil => rfl
  | cons a t => rfl

/-- C7: for a non-empty registry and a non-empty content type, `GetCodec`
returns the first registered codec whose content type is a case-insensitive
substring of the given one, and fails with the formatted
content-type-not-supported error — carrying the offending value — exactly when
no registered codec matches that way. -/
theorem getCodec_first_substring_match_or_error (s : WebCodecService)
    (contentType : Str) (hne : s.codecs ≠ []) (hct : contentType ≠ []) :
    s.GetCodec contentType =
      some (match s.codecs.find? (fun codec =>
              containsSub (toLowerStr contentType) (toLowerStr codec.contentType)) with
            | some codec => Except.ok codec
            | none => Except.error (contentTypeNotSupportedMessage contentType)) := by
  rcases hcs : s.codecs with _ | ⟨c0, rest⟩
  · exact absurd hcs hne
  · unfold WebCodecService.GetCodec
    rw [hcs]
    show (match (c0 :: rest).find? (interpretMatch contentType) with
          | some codec => some (Except.ok codec)
          | none => some (Except.error (contentTypeNotSupportedMessage contentType))) = _
    rw [find?_congr (interpretMatch contentType)
        (fun codec => containsSub (toLowerStr contentType) (toLowerStr codec.contentType))
        (interpretMatch_of_ne_nil contentType hct) (c0 :: rest)]
    cases (c0 :: rest).find? (fun codec =>
        containsSub (toLowerStr contentType) (toLowerStr codec.contentType)) <;> rfl

/-- Witness: C7 applied to a parameterized content type (matching JSON by
substring) and to an unmatchable content type (producing the carried error). -/
theorem getCodec_first_substring_match_or_error_witness :
    WebCodecService.GetCodec { codecs := [SimpleXmlCodec, JsonCodec] }
        (strOf "application/json; charset=utf-8") = some (Except.ok JsonCodec) ∧
    WebCodecService.GetCodec { codecs := [JsonCodec] } (strOf "text/unknown") =
      some (Except.error (contentTypeNotSupportedMessage (strOf "text/unknown"))) :=
  ⟨(getCodec_first_substring_match_or_error { codecs := [SimpleXmlCodec, JsonCodec] }
      (strOf "application/json; charset=utf-8") (List.cons_ne_nil _ _) (by decide)).trans rfl,
   (getCodec_first_substring_match_or_error { codecs := [JsonCodec] }
      (strOf "text/unknown") (List.cons_ne_nil _ _) (by decide)).trans rfl⟩

/-- C8 (amended): with the empty content type, `GetCodec` returns the first
registry codec whose declared content type is the canonical JSON type, provided
no earlier codec declares an empty content type (an empty declared type is a
substring of the empty content type and wins first — see the counterexample). -/
theorem getCodec_empty_contentType_returns_json (s : WebCodecService) (j : Codec)
    (hne : s.codecs ≠ [])
    (hfind : s.codecs.find? (fun codec =>
        codec.contentType == ContentTypeJSON || codec.contentType == []) = some j)
    (hj : j.contentType = ContentTypeJSON) :
    s.GetCodec [] = some (Except.ok j) := by
  rcases hcs : s.codecs with _ | ⟨c0, rest⟩
  · exact absurd hcs hne
  · rw [hcs] at hfind
    unfold WebCodecService.GetCodec
    rw [hcs]
    show (match (c0 :: rest).find? (interpretMatch []) with
          | some codec => some (Except.ok codec)
          | none => some (Except.error (contentTypeNotSupportedMessage []))) =
        some (Except.ok j)
    rw [find?_congr (interpretMatch [])
        (fun codec => codec.contentType == ContentTypeJSON || codec.contentType == [])
        interpretMatch_nil (c0 :: rest), hfind]

/-- Witness: C8 (amended) applied to the registry `[SimpleXmlCodec, JsonCodec]`. -/
theorem getCodec_empty_contentType_returns_json_witness :
    WebCodecService.GetCodec { codecs := [SimpleXmlCodec, JsonCodec] } [] =
      some (Except.ok JsonCodec) :=
  getCodec_empty_contentType_returns_json { codecs := [SimpleXmlCodec, JsonCodec] }
    JsonCodec (List.cons_ne_nil _ _) rfl rfl

/-- C8 counterexample: the registry `[emptyTypeCodec, JsonCodec]` contains the
canonical JSON codec, yet `GetCodec` on the empty content type returns the
earlier codec with the empty declared content type instead. -/
theorem getCodec_empty_contentType_prefers_earlier_empty_codec :
    WebCodecService.GetCodec { codecs := [emptyTypeCodec, JsonCodec] } [] =
      some (Except.ok emptyTypeCodec) ∧
    JsonCodec ∈ ({ codecs := [emptyTypeCodec, JsonCodec] } : WebCodecService).codecs ∧
    JsonCodec.contentType = ContentTypeJSON ∧
    emptyTypeCodec ≠ JsonCodec :=
  ⟨rfl, List.mem_cons_of_mem _ (List.mem_cons_self _ _), rfl,
    fun hEq => absurd (congrArg Codec.contentType hEq) (by decide)⟩

/-- C9: `MarshalWithCodec` on a non-empty registry marshals the object's public
projection — the raw value for objects without the facade capability, the
capability's output otherwise; a projection failure is returned unchanged
without consulting the codec (the codec is universally quantified there), and
otherwise the codec's marshal result is returned unchanged. -/
theorem marshalWithCodec_uses_public_projection (s : WebCodecService) (codec : Codec)
    (options : Options) (hne : s.codecs ≠ []) :
    (∀ v : Val, s.MarshalWithCodec codec (.plain v) options
        = some (codec.marshal v options)) ∧
    (∀ (f : Options → Except Str Val) (e : Str), f options = .error e →
      s.MarshalWithCodec codec (.facade f) options = some (.error e)) ∧
    (∀ (f : Options → Except Str Val) (v : Val), f options = .ok v →
      s.MarshalWithCodec codec (.facade f) options = some (codec.marshal v options)) := by
  rcases hcs : s.codecs with _ | ⟨c0, rest⟩
  · exact absurd hcs hne
  · refine ⟨fun v => ?_, fun f e hf => ?_, fun f v hf => ?_⟩
    · unfold WebCodecService.MarshalWithCodec
      rw [hcs]
      rfl
    · unfold WebCodecService.MarshalWithCodec
      rw [hcs]
      show (match f options with
            | .error err => some (.error err)
            | .ok publicData => some (codec.marshal publicData options)) = some (.error e)
      rw [hf]
    · unfold WebCodecService.MarshalWithCodec
      rw [hcs]
      show (match f options with
            | .error err => some (.error err)
            | .ok publicData => some (codec.marshal publicData options))
          = some (codec.marshal v options)
      rw [hf]

/-- Witness: C9 applied with a concrete failing facade — the projection error
comes back unchanged. -/
theorem marshalWithCodec_uses_public_projection_witness :
    WebCodecService.MarshalWithCodec { codecs := [JsonCodec] } JsonCodec
        (Object.facade (fun _ => Except.error (strOf "facade failure"))) []
      = some (Except.error (strOf "facade failure")) :=
  (marshalWithCodec_uses_public_projection { codecs := [JsonCodec] } JsonCodec []
      (List.cons_ne_nil _ _)).2.1
    (fun _ => Except.error (strOf "facade failure")) (strOf "facade failure") rfl

/-- On a non-empty registry, `GetCodec` never hits the empty-registry panic. -/
theorem getCodec_isSome (s : WebCodecService) (contentType : Str) (h : s.codecs ≠ []) :
    (s.GetCodec contentType).isSome = true := by
  rcases hcs : s.codecs with _ | ⟨c0, rest⟩
  · exact absurd hcs h
  · unfold WebCodecService.GetCodec
    rw [hcs]
    show (match (c0 :: rest).find? (interpretMatch contentType) with
          | some codec => some (Except.ok codec)
          | none =>
            some (Except.error (contentTypeNotSupportedMessage contentType))).isSome = true
    cases (c0 :: rest).find? (interpretMatch contentType) <;> rfl

/-- On a non-empty registry, `MarshalWithCodec` never hits the empty-registry
panic. -/
theorem marshalWithCodec_isSome (s : WebCodecService) (codec : Codec) (object : Object)
    (options : Options) (h : s.codecs ≠ []) :
    (s.MarshalWithCodec codec object options).isSome = true := by
  rcases hcs : s.codecs with _ | ⟨c0, rest⟩
  · exact absurd hcs h
  · unfold WebCodecService.MarshalWithCodec
    rw [hcs]
    show (match PublicData object options with
          | Except.error err => some (Except.error err)
          | Except.ok publicData => some (codec.marshal publicData options)).isSome = true
    cases PublicData object options <;> rfl

/-- C10: a freshly constructed service holds exactly the six default codecs in
the fixed order JSON, JSONP, MsgPack, BSON, CSV, XML — the JSON codec first —
so its registry is non-empty, `assertCodecs` passes, and no public operation on
it can hit the empty-registry panic. -/
theorem newWebCodecService_default_registry :
    NewWebCodecService.codecs
        = [JsonCodec, JsonPCodec, MsgpackCodec, BsonCodec, CsvCodec, SimpleXmlCodec] ∧
    NewWebCodecService.codecs.length = 6 ∧
    NewWebCodecService.codecs ≠ [] ∧
    NewWebCodecService.assertCodecs = true ∧
    (∀ accept extension hasCallback,
      (NewWebCodecService.GetCodecForResponding accept extension hasCallback).isSome
        = true) ∧
    (∀ contentType, (NewWebCodecService.GetCodec contentType).isSome = true) ∧
    (∀ codec object options,
      (NewWebCodecService.MarshalWithCodec codec object options).isSome = true) := by
  refine ⟨rfl, rfl, List.cons_ne_nil _ _, rfl, fun accept extension hasCallback => ?_,
    fun contentType => getCodec_isSome NewWebCodecService contentType (List.cons_ne_nil _ _),
    fun codec object options =>
      marshalWithCodec_isSome NewWebCodecService codec object options (List.cons_ne_nil _ _)⟩
  obtain ⟨c, hc, -⟩ := respond_total_helper NewWebCodecService accept extension hasCallback
    (List.cons_ne_nil _ _)
  rw [hc]
  rfl
